import Mathlib

/-!
Verification of the daily-arXiv extraction/deduplication pipeline.

The first part embeds the string primitives the Python code relies on,
the second part embeds `src/daily_arxiv/daily_arxiv/check_stats.py`
(the Deduplication Engine), and the third part embeds
`src/daily_arxiv/daily_arxiv/spiders/arxiv.py` (the Listing Extractor).
All definitions compute by structural recursion so that concrete runs can
be evaluated inside proofs.
-/

namespace DailyArxiv

open List (Sublist Perm)
open scoped List

/-! ## String primitives

Models of the Python string operations the two source files use, written
over `List Char` so that they reduce in the kernel.  Python strings are
sequences of Unicode code points, as are Lean `String`s, so the models
agree with Python on every input the pipeline handles (the ASCII-only
case-folding of `Char.toLower` matches `str.lower` on ASCII text). -/

/-- Python `s.lower()` (ASCII case folding). -/
def pyLower (s : String) : String :=
  String.mk (s.data.map Char.toLower)

/-- Test whether `lp` is a prefix of `l`. -/
def listIsPrefix : List Char → List Char → Bool
  | [], _ => true
  | _ :: _, [] => false
  | p :: ps, c :: cs => p = c && listIsPrefix ps cs

/-- Helper for `strContains`: does `p` occur as a contiguous sublist? -/
def containsAux (p : List Char) : List Char → Bool
  | [] => listIsPrefix p []
  | c :: t => listIsPrefix p (c :: t) || containsAux p t

/-- Python `pat in s` (substring containment). -/
def strContains (pat s : String) : Bool :=
  containsAux pat.data s.data

/-- Lexicographic order on character lists by code point, the order Python
uses to compare strings.  Ties (equal lists) are ≤. -/
def charListLe : List Char → List Char → Bool
  | [], _ => true
  | _ :: _, [] => false
  | a :: as, b :: bs =>
    if a.toNat < b.toNat then true
    else if b.toNat < a.toNat then false
    else charListLe as bs

/-- Python `a <= b` on strings. -/
def strLe (a b : String) : Bool := charListLe a.data b.data

/-- Python `s.strip()`: remove leading and trailing whitespace. -/
def pyStrip (s : String) : String :=
  String.mk (((s.data.dropWhile Char.isWhitespace).reverse.dropWhile
    Char.isWhitespace).reverse)

/-- Python `s.replace(pat, rep)`: replace every non-overlapping occurrence,
scanning left to right.  `fuel` bounds the recursion; it is always called
with at least the length of the scanned list, which suffices because each
step consumes at least one character. -/
def replaceFuel (pat rep : List Char) : Nat → List Char → List Char
  | _, [] => []
  | 0, l => l
  | fuel + 1, c :: t =>
    if pat ≠ [] ∧ listIsPrefix pat (c :: t) = true then
      rep ++ replaceFuel pat rep fuel (List.drop (pat.length - 1) t)
    else
      c :: replaceFuel pat rep fuel t

/-- Python `s.replace(pat, rep)` on strings (the pipeline only calls it
with the nonempty pattern `"/abs/"`). -/
def pyReplace (s pat rep : String) : String :=
  String.mk (replaceFuel pat.data rep.data s.data.length s.data)

/-- Python `"".join(parts)`. -/
def joinAll (parts : List String) : String :=
  String.mk (parts.flatMap String.data)

/-! ## Deduplication Engine: model of check_stats.py -/

/-- A persisted paper record (one JSONL line), restricted to the fields that
`check_stats.py` reads: `id`, `version` and `section`, each of which may be
missing from the JSON object.  `extra` stands for all remaining JSON fields
(links, subject categories, …), which the deduplication code never
inspects. -/
structure Paper where
  id : Option String
  version : Option String
  «section» : Option String
  extra : List (String × String)
deriving DecidableEq, Repr

/-- Model of `key_of` (check_stats.py lines 70–77):
`(paper.get('id', ''), paper.get('version') or 'v1')`.
Python's `or` sends both a missing and an empty `version` to `"v1"`. -/
def key_of (p : Paper) : String × String :=
  (p.id.getD "",
   match p.version with
   | none => "v1"
   | some "" => "v1"
   | some v => v)

/-- Model of `(paper.get('section') or '').lower()` (check_stats.py line 127). -/
def sectionLower (p : Paper) : String :=
  pyLower ((p.«section»).getD "")

/-- The retention loop of `perform_deduplication` (check_stats.py
lines 120–147): iterate today's records in order; a record whose lowered
`section` equals `'repl'` is always kept; any other record is dropped when
its `(id, version)` key was already seen earlier today, added to the
seen-set and then dropped when the key occurs in the history key set, and
kept otherwise. -/
def dedupGo (historyKeys : List (String × String)) :
    List (String × String) → List Paper → List Paper
  | _, [] => []
  | seenToday, p :: rest =>
    if sectionLower p = "repl" then
      p :: dedupGo historyKeys seenToday rest
    else if key_of p ∈ seenToday then
      dedupGo historyKeys seenToday rest
    else if key_of p ∈ historyKeys then
      dedupGo historyKeys (key_of p :: seenToday) rest
    else
      p :: dedupGo historyKeys (key_of p :: seenToday) rest

/-- State of one per-day store file as the engine can observe it:
missing, readable with the given records, or raising on read. -/
inductive FileState
  | absent
  | ok (papers : List Paper)
  | readError
deriving DecidableEq, Repr

/-- Model of `load_papers_data` (check_stats.py lines 24–48): a missing file yields
`[]`, and — because the `try/except` catches every exception, logs it to
stderr and returns `[]` — a file whose read raises also yields `[]`. -/
def load_papers_data : FileState → List Paper
  | .absent => []
  | .ok papers => papers
  | .readError => []

/-- The four status strings `perform_deduplication` can return. -/
inductive Status
  | has_new_content
  | no_new_content
  | no_data
  | error
deriving DecidableEq, Repr

/-- The `(id, version)` key union over the history-window files
(check_stats.py lines 108–115); list membership models set membership. -/
def historyKeysOf (hist : List FileState) : List (String × String) :=
  (hist.flatMap load_papers_data).map key_of

/-- Model of `perform_deduplication` (check_stats.py lines 80–174) with the file
system abstracted: `today` is the state of today's file, `hist` the states
of the history-window files, and `writeOk` / `removeOk` tell whether
`save_papers_data` / `os.remove` succeed.  The result is the returned
status together with the final state of today's file (`none` when a failed
write leaves the file contents unspecified).  A failed remove is caught and
the status is still `no_new_content`; a failed write (`save_papers_data`
catches the exception and returns `False`) yields `error`. -/
def perform_deduplication (today : FileState) (hist : List FileState)
    (writeOk removeOk : Bool) : Status × Option FileState :=
  if today = .absent then (.no_data, some .absent)
  else
    let todayPapers := load_papers_data today
    if todayPapers = [] then (.no_data, some today)
    else
      let kept := dedupGo (historyKeysOf hist) [] todayPapers
      if kept = [] then
        if removeOk then (.no_new_content, some .absent)
        else (.no_new_content, some today)
      else
        if writeOk then (.has_new_content, some (.ok kept))
        else (.error, none)

/-- The exit code `main` passes to `sys.exit` for each engine status
(check_stats.py lines 192–207). -/
def exit_code : Status → Nat
  | .has_new_content => 0
  | .no_new_content => 1
  | .no_data => 1
  | .error => 2

/-- The two process output streams. -/
inductive OutStream
  | stdout
  | stderr
deriving DecidableEq, Repr

/-- The stream argument of every `print` call in check_stats.py, one list
entry per call site, in source order (lines 47, 66, 98, 103, 117, 151, 158,
161, 167, 169, 173, 187, 193, 196, 199, 202 and 206).  Every one of them
passes `file=sys.stderr`. -/
def printSites : List OutStream :=
  [.stderr, .stderr, .stderr, .stderr, .stderr, .stderr, .stderr, .stderr,
   .stderr, .stderr, .stderr, .stderr, .stderr, .stderr, .stderr, .stderr,
   .stderr]

/-! ## Listing Extractor: model of spiders/arxiv.py

The HTTP and HTML layers (scrapy) are external collaborators: a fetched
page is modelled as the ordered `h3`/`dl` elements that the xpath
`//div[@id='dlpage']/*[self::h3 or self::dl]` yields, with each node
carrying exactly the data the spider's css selectors read from it, and
`urljoin` (scrapy's URL resolution) is an uninterpreted parameter. -/

/-- Maximal run of characters matched by the regex class `[a-z\-]`. -/
def takeLowerRun : List Char → List Char × List Char
  | [] => ([], [])
  | c :: t =>
    if c.isLower || c = '-' then
      let r := takeLowerRun t
      (c :: r.1, r.2)
    else ([], c :: t)

/-- One attempt of the regex `\(([a-z\-]+\.[A-Z]{2})\)` (arxiv.py line 97)
at the head of the input: an opening paren, a nonempty maximal `[a-z-]`
run, a literal dot, two uppercase letters, a closing paren.  Returns the
captured group and the input remaining after the match.  Shortening the
greedy run can never recover a failed attempt, because a run character can
never match the following literal dot, so the maximal-run reading is
exactly the regex semantics. -/
def matchCodeAt : List Char → Option (List Char × List Char)
  | '(' :: t =>
    match takeLowerRun t with
    | ([], _) => none
    | (c :: run, rest) =>
      match rest with
      | '.' :: u₁ :: u₂ :: ')' :: r =>
        if u₁.isUpper && u₂.isUpper then some ((c :: run) ++ '.' :: [u₁, u₂], r)
        else none
      | _ => none
  | _ => none

/-- Scanner of `re.findall` for the category-code regex: left to right,
non-overlapping matches.  `fuel` bounds the recursion; each step consumes
at least one character, so an initial fuel of the list length suffices. -/
def findCodesFuel : Nat → List Char → List String
  | _, [] => []
  | 0, _ => []
  | fuel + 1, c :: t =>
    match matchCodeAt (c :: t) with
    | some (code, rest) => String.mk code :: findCodesFuel fuel rest
    | none => findCodesFuel fuel t

/-- Model of `re.findall(r"\(([a-z\-]+\.[A-Z]{2})\)", text)`. -/
def findCodes (l : List Char) : List String := findCodesFuel l.length l

/-- The regex `/abs/([0-9]{4}\.[0-9]{5})` (arxiv.py line 83) matched at the
head of the input; returns the captured identifier. -/
def matchAbsIdAt : List Char → Option String
  | '/' :: 'a' :: 'b' :: 's' :: '/' :: d₁ :: d₂ :: d₃ :: d₄ :: '.' ::
      e₁ :: e₂ :: e₃ :: e₄ :: e₅ :: _ =>
    if d₁.isDigit && d₂.isDigit && d₃.isDigit && d₄.isDigit &&
       e₁.isDigit && e₂.isDigit && e₃.isDigit && e₄.isDigit && e₅.isDigit then
      some (String.mk [d₁, d₂, d₃, d₄, '.', e₁, e₂, e₃, e₄, e₅])
    else none
  | _ => none

/-- Model of `re.search` for the identifier regex: leftmost match. -/
def searchAbsId : List Char → Option String
  | [] => none
  | c :: t =>
    match matchAbsIdAt (c :: t) with
    | some s => some s
    | none => searchAbsId t

/-- Maximal run of characters matched by the regex class `[^/]`. -/
def takeNonSlash : List Char → List Char × List Char
  | [] => ([], [])
  | c :: t =>
    if c = '/' then ([], c :: t)
    else
      let r := takeNonSlash t
      (c :: r.1, r.2)

/-- The regex `/list/([^/]+)/new` (arxiv.py line 44) matched at the head of
the input; returns the captured category. -/
def matchListCatAt : List Char → Option String
  | '/' :: 'l' :: 'i' :: 's' :: 't' :: '/' :: t =>
    match takeNonSlash t with
    | ([], _) => none
    | (c :: run, rest) =>
      match rest with
      | '/' :: 'n' :: 'e' :: 'w' :: _ => some (String.mk (c :: run))
      | _ => none
  | _ => none

/-- Model of `re.search` for the source-category regex: leftmost match. -/
def searchListCat : List Char → Option String
  | [] => none
  | c :: t =>
    match matchListCatAt (c :: t) with
    | some s => some s
    | none => searchListCat t

/-- Model of `source_cat = mcat.group(1) if mcat else ""` (arxiv.py lines 44–45). -/
def sourceCatOf (url : String) : String := (searchListCat url.data).getD ""

/-- Model of `self.CAT_PRIORITY.get(source_cat, 99)` with
`CAT_PRIORITY = {"math.QA": 0, "math.RT": 1}` (arxiv.py lines 25, 46). -/
def catPriorityOf (cat : String) : Nat :=
  if cat = "math.QA" then 0 else if cat = "math.RT" then 1 else 99

/-- An `<a>` element inside a `dt`, with its `title` attribute (absent when
the tag has none) and its `href`. -/
structure Anchor where
  title : Option String
  href : String
deriving DecidableEq, Repr

/-- A `dt` element: the anchors the spider's css selectors scan. -/
structure DtNode where
  anchors : List Anchor
deriving DecidableEq, Repr

/-- A `dd` element: the text fragments `.list-subjects ::text` yields. -/
structure DdNode where
  subjParts : List String
deriving DecidableEq, Repr

/-- A `dl` block: its `dt` and `dd` children (paired by `zip`). -/
structure DlNode where
  dts : List DtNode
  dds : List DdNode
deriving DecidableEq, Repr

/-- One element of `//div[@id='dlpage']/*[self::h3 or self::dl]`, in
document order: a section heading (with its `::text` fragments) or an
entry block. -/
inductive PageElem
  | h3 (texts : List String)
  | dl (node : DlNode)
deriving DecidableEq, Repr

/-- An element of `page_items` before the final pops: the emitted fields
plus the two transient ordering keys. -/
structure Item where
  id : String
  abs : String
  pdf : String
  categories : List String
  cat_priority : Nat
  section_rank : Nat
deriving DecidableEq, Repr

/-- A record as yielded, after `cat_priority` and `section_rank` are
popped. -/
structure PaperOut where
  id : String
  abs : String
  pdf : String
  categories : List String
deriving DecidableEq, Repr

/-- Heading classification (arxiv.py lines 57–65):
`"".join(texts).strip().lower()`, then substring tests mapping the heading
to a section rank. -/
def headingRank (texts : List String) : Nat :=
  let heading := pyLower (pyStrip (joinAll texts))
  if strContains "new submission" heading then 0
  else if strContains "cross submission" heading then 1
  else if strContains "replacement" heading then 2
  else 3

/-- Lines 76–80: the href of the first `Abstract`-titled link, else the
first link whose href contains `/abs/`.  Python's truthiness test
`if not abs_href` treats an empty href exactly like a missing one, so both
collapse to `none` here. -/
def absHrefOf (dt : DtNode) : Option String :=
  let first :=
    match dt.anchors.find? (fun a => a.title = some "Abstract") with
    | some a => a.href
    | none => ""
  let second :=
    if first = "" then
      match dt.anchors.find? (fun a => strContains "/abs/" a.href) with
      | some a => a.href
      | none => ""
    else first
  if second = "" then none else some second

/-- Lines 76–86: resolve the abs link against the page URL and extract the
arXiv identifier; `none` when either the link or the identifier pattern is
missing.  Returns the identifier together with the resolved URL. -/
def extractId (urljoin : String → String) (dt : DtNode) :
    Option (String × String) :=
  match absHrefOf dt with
  | none => none
  | some href =>
    let absUrl := urljoin href
    match searchAbsId absUrl.data with
    | none => none
    | some aid => some (aid, absUrl)

/-- Model of `" ".join(t.strip() for t in subj_parts if t.strip())` (line 94). -/
def subjectsText (parts : List String) : String :=
  String.intercalate " " ((parts.map pyStrip).filter (fun t => t ≠ ""))

/-- Model of `paper_categories = set(re.findall(code_regex, subjects_text))`
(arxiv.py lines 98–99), as a duplicate-free list. -/
def paperCategories (dd : DdNode) : List String :=
  (findCodes (subjectsText dd.subjParts).data).dedup

/-- The body of the `for paper_dt, paper_dd in zip(dts, dds)` loop
(arxiv.py lines 74–145) for one entry.  `rank?` models the local variable
`current_section_rank`, which is unbound (`none`) until a heading has been
seen; the `has_target` branch reads it, raising `UnboundLocalError` then,
modelled as `.error ()`.  The parsed category set is carried as a
duplicate-free list (`List.dedup` / `List.insert` model Python's `set`,
whose iteration order the code does not rely on).  Returns the produced
item, if any, and the updated `seen_ids`. -/
def entryResult (targets : List String) (sourceCat : String) (catPrio : Nat)
    (urljoin : String → String) (rank? : Option Nat) (seen : List String)
    (dt : DtNode) (dd : DdNode) : Except Unit (Option Item × List String) :=
  match extractId urljoin dt with
  | none => .ok (none, seen)
  | some (aid, absUrl) =>
    if aid ∈ seen then .ok (none, seen)
    else
      let stext := subjectsText dd.subjParts
      let cats := paperCategories dd
      let hasTarget := cats.any (fun c => decide (c ∈ targets))
      if hasTarget || decide (sourceCat ∈ targets) then
        let cats' :=
          if hasTarget then cats
          else if sourceCat ≠ "" then cats.insert sourceCat else cats
        match rank? with
        | none => .error ()
        | some rank =>
          .ok (some { id := aid, abs := absUrl,
                      pdf := pyReplace absUrl "/abs/" "/pdf/",
                      categories := cats', cat_priority := catPrio,
                      section_rank := rank }, aid :: seen)
      else
        if stext = "" then
          .ok (some { id := aid, abs := absUrl,
                      pdf := pyReplace absUrl "/abs/" "/pdf/",
                      categories := [], cat_priority := catPrio,
                      section_rank := 3 }, aid :: seen)
        else .ok (none, seen)

/-- The entry loop over `zip(dts, dds)` of one `dl` block. -/
def processEntries (targets : List String) (sourceCat : String)
    (catPrio : Nat) (urljoin : String → String) (rank? : Option Nat) :
    List String → List (DtNode × DdNode) → Except Unit (List Item × List String)
  | seen, [] => .ok ([], seen)
  | seen, (dt, dd) :: rest =>
    match entryResult targets sourceCat catPrio urljoin rank? seen dt dd with
    | .error e => .error e
    | .ok (none, seen') =>
      processEntries targets sourceCat catPrio urljoin rank? seen' rest
    | .ok (some it, seen') =>
      match processEntries targets sourceCat catPrio urljoin rank? seen' rest with
      | .error e => .error e
      | .ok (items, seen'') => .ok (it :: items, seen'')

/-- The element loop of `parse` (arxiv.py lines 52–145): an `h3` updates
`current_section_rank`, a `dl` contributes its entries. -/
def processElems (targets : List String) (sourceCat : String) (catPrio : Nat)
    (urljoin : String → String) :
    Option Nat → List String → List PageElem → Except Unit (List Item × List String)
  | _, seen, [] => .ok ([], seen)
  | _, seen, .h3 texts :: rest =>
    processElems targets sourceCat catPrio urljoin
      (some (headingRank texts)) seen rest
  | rank?, seen, .dl node :: rest =>
    match processEntries targets sourceCat catPrio urljoin rank? seen
        (node.dts.zip node.dds) with
    | .error e => .error e
    | .ok (items, seen') =>
      match processElems targets sourceCat catPrio urljoin rank? seen' rest with
      | .error e => .error e
      | .ok (items', seen'') => .ok (items ++ items', seen'')

/-- Comparator of the first sort pass, `sort(key=id, reverse=True)`
(arxiv.py line 150): `a` may precede `b` when `b.id ≤ a.id` in Python's
string order; equal keys stay in their original order. -/
def idDescLe (a b : Item) : Prop := strLe b.id a.id = true

/-- Comparator of the second pass, `sort(key=section_rank)` (line 151). -/
def secLe (a b : Item) : Prop := a.section_rank ≤ b.section_rank

/-- Comparator of the third pass, `sort(key=cat_priority)` (line 152). -/
def catLe (a b : Item) : Prop := a.cat_priority ≤ b.cat_priority

instance : DecidableRel idDescLe := fun _ _ => instDecidableEqBool _ _

instance : DecidableRel secLe := fun _ _ => Nat.decLe _ _

instance : DecidableRel catLe := fun _ _ => Nat.decLe _ _

/-- The three stable sort passes of arxiv.py lines 150–152.  Python's
`list.sort` is specified as a stable sort, and the output of a stable sort
is uniquely determined by the comparator, so it is modelled by
`List.insertionSort` (Mathlib's stable sort): first by identifier
descending, then by section rank ascending, then by source-category
priority ascending. -/
def sortItems (l : List Item) : List Item :=
  List.insertionSort catLe
    (List.insertionSort secLe (List.insertionSort idDescLe l))

/-- Lines 155–157: `pop` the two transient ordering keys. -/
def stripItem (it : Item) : PaperOut :=
  { id := it.id, abs := it.abs, pdf := it.pdf, categories := it.categories }

/-- Model of `ArxivSpider.parse` on one listing page: derive the source category and
its priority from the URL, run the element loop starting with the
section-rank variable unbound, sort, strip the transient keys.  `seen₀` is
the process-lifetime `self.seen_ids` at the start of the call; the updated
set is returned alongside the yielded records. -/
def parsePage (targets : List String) (urljoin : String → String)
    (url : String) (seen₀ : List String) (elems : List PageElem) :
    Except Unit (List PaperOut × List String) :=
  let sourceCat := sourceCatOf url
  match processElems targets sourceCat (catPriorityOf sourceCat) urljoin
      none seen₀ elems with
  | .error e => .error e
  | .ok (items, seen') => .ok ((sortItems items).map stripItem, seen')

/-- Modelled from the spec (Design Notes, "single composite-key sort"): the
tuple comparator — source priority ascending, then section priority
ascending, then identifier descending. -/
def lexLe (a b : Item) : Prop :=
  a.cat_priority < b.cat_priority ∨
    (a.cat_priority = b.cat_priority ∧
      (a.section_rank < b.section_rank ∨
        (a.section_rank = b.section_rank ∧ strLe b.id a.id = true)))

instance : DecidableRel lexLe := fun a b => by unfold lexLe; infer_instance

/-- Modelled from the spec: the single stable sort by the composite key. -/
def compositeSort (l : List Item) : List Item := List.insertionSort lexLe l

/-- The identifier shape of C9: exactly 4 digits, a literal dot, exactly
5 digits. -/
def validIdStr (s : String) : Bool :=
  match s.data with
  | [d₁, d₂, d₃, d₄, dot, e₁, e₂, e₃, e₄, e₅] =>
    d₁.isDigit && d₂.isDigit && d₃.isDigit && d₄.isDigit && dot = '.' &&
      e₁.isDigit && e₂.isDigit && e₃.isDigit && e₄.isDigit && e₅.isDigit
  | _ => false

/-! ## Concrete instances used by witnesses and counterexamples -/

/-- Three extracted records with pairwise-distinct identifiers. -/
def demoItems : List Item :=
  [{ id := "2401.00005", abs := "a5", pdf := "p5", categories := ["math.RT"],
     cat_priority := 1, section_rank := 0 },
   { id := "2401.00007", abs := "a7", pdf := "p7", categories := ["math.QA"],
     cat_priority := 0, section_rank := 2 },
   { id := "2401.00006", abs := "a6", pdf := "p6", categories := ["math.RT"],
     cat_priority := 1, section_rank := 0 }]

/-- A record carrying the spec's `section == "replacement"` tag. -/
def replPaper : Paper := ⟨some "2401.00001", none, some "replacement", []⟩

/-- The spec's version-upgrade scenario record. -/
def upgradedPaper : Paper := ⟨some "2401.00002", some "v2", some "new", []⟩

/-- An ordinary record with no version tag. -/
def plainPaper : Paper := ⟨some "2401.00003", none, some "new", []⟩

/-- A `dt` with a well-formed abstract link. -/
def dtAbs : DtNode := ⟨[⟨some "Abstract", "/abs/2401.00001"⟩]⟩

/-- A `dd` whose subject text parses to a category code. -/
def ddWithCode : DdNode := ⟨["Quantum Algebra (math.QA)"]⟩

/-- A `dd` whose subject text parses to `math.RT`. -/
def ddRT : DdNode := ⟨["Representation Theory (math.RT)"]⟩

/-- A `dd` with no subject text at all. -/
def ddEmpty : DdNode := ⟨[]⟩

/-- A `dd` with nonempty subject text from which no code parses. -/
def ddNoCode : DdNode := ⟨["odd subjects text"]⟩

/-! ## Theorems -/

/-- C1, counterexample: the engine's always-keep test compares the lowered
section against the literal `'repl'`, so a record whose section is
`"replacement"` is not exempt — the second occurrence of the duplicated
replacement record is removed by the intra-day layer. -/
theorem replacement_record_is_deduplicated :
    dedupGo [] [] [replPaper, replPaper] = [replPaper] ∧
    replPaper.«section» = some "replacement" ∧
    List.count replPaper [replPaper, replPaper] = 2 := by
  refine ⟨by decide, rfl, by decide⟩

/-- C1, amended: every record whose lowered `section` equals `"repl"` is
retained with its exact multiplicity — never removed, whether or not its
`(id, version)` key matches history or repeats within the day. -/
theorem dedupGo_keeps_repl_records (hk : List (String × String))
    (today : List Paper) (p : Paper) (hp : sectionLower p = "repl") :
    ∀ seen, List.count p (dedupGo hk seen today) = List.count p today := by
  induction today with
  | nil => intro seen; rfl
  | cons q rest ih =>
    intro seen
    by_cases hq : sectionLower q = "repl"
    · simp only [dedupGo, if_pos hq, List.count_cons, ih]
    · have hqp : q ≠ p := fun h => hq (h ▸ hp)
      have hcount : List.count p (q :: rest) = List.count p rest :=
        List.count_cons_of_ne (fun h => hqp h.symm) rest
      simp only [dedupGo, if_neg hq]
      by_cases h1 : key_of q ∈ seen
      · simp only [if_pos h1, ih, hcount]
      · by_cases h2 : key_of q ∈ hk
        · simp only [if_neg h1, if_pos h2, ih, hcount]
        · simp only [if_neg h1, if_neg h2, List.count_cons, ih, hcount,
            beq_iff_eq, if_neg hqp, Nat.add_zero]

/-- C1 amended, witness. -/
theorem dedupGo_keeps_repl_records_witness :
    List.count (⟨some "2401.00009", none, some "repl", []⟩ : Paper)
      (dedupGo [("2401.00009", "v1")] []
        [⟨some "2401.00009", none, some "repl", []⟩,
         ⟨some "2401.00009", none, some "repl", []⟩]) =
      List.count (⟨some "2401.00009", none, some "repl", []⟩ : Paper)
        [⟨some "2401.00009", none, some "repl", []⟩,
         ⟨some "2401.00009", none, some "repl", []⟩] :=
  dedupGo_keeps_repl_records _ _ _ (by decide) []

/-- C2, counterexample: an I/O failure while reading today's store is
swallowed by `load_papers_data` (which returns `[]`), so the engine
reports `no_data`, not `error`. -/
theorem read_error_returns_no_data :
    perform_deduplication .readError [] true true =
      (.no_data, some .readError) ∧
    Status.no_data ≠ Status.error :=
  ⟨rfl, by decide⟩

/-- C2, amended: no exception escapes the engine, but only a failed write
of a nonempty kept-set produces the `error` status; read failures are
caught inside the loader and surface as empty data, so an unreadable
today-file yields `no_data` and unreadable history files are treated as
empty history. -/
theorem error_status_iff_write_failure (today : FileState)
    (hist : List FileState) (w r : Bool) :
    ((perform_deduplication today hist w r).1 = .error ↔
      (w = false ∧ today ≠ .absent ∧ load_papers_data today ≠ [] ∧
        dedupGo (historyKeysOf hist) [] (load_papers_data today) ≠ [])) ∧
    (perform_deduplication .readError hist w r).1 = .no_data := by
  constructor
  · unfold perform_deduplication
    by_cases ha : today = .absent
    · simp [ha]
    · simp only [if_neg ha]
      by_cases hl : load_papers_data today = []
      · simp [hl]
      · simp only [if_neg hl]
        by_cases hk : dedupGo (historyKeysOf hist) [] (load_papers_data today) = []
        · cases r <;> simp [hk, ha, hl]
        · cases w <;> simp [hk, ha, hl]
  · rfl

/-- Re-running the retention loop on its own output, with a seen-set no
larger than the one the first run started from, changes nothing: every
kept non-repl record's key avoids the history set and every smaller
seen-set, and the kept non-repl keys are pairwise distinct. -/
theorem dedupGo_rerun_eq (hk : List (String × String)) :
    ∀ (m : List Paper) (seen₁ seen₂ : List (String × String)),
      seen₂ ⊆ seen₁ →
      dedupGo hk seen₂ (dedupGo hk seen₁ m) = dedupGo hk seen₁ m := by
  intro m
  induction m with
  | nil => intro seen₁ seen₂ _; rfl
  | cons q rest ih =>
    intro seen₁ seen₂ hsub
    by_cases hq : sectionLower q = "repl"
    · simp only [dedupGo, if_pos hq]
      rw [ih seen₁ seen₂ hsub]
    · by_cases h1 : key_of q ∈ seen₁
      · simp only [dedupGo, if_neg hq, if_pos h1]
        exact ih seen₁ seen₂ hsub
      · by_cases h2 : key_of q ∈ hk
        · simp only [dedupGo, if_neg hq, if_neg h1, if_pos h2]
          exact ih (key_of q :: seen₁) seen₂
            (hsub.trans (List.subset_cons_self _ _))
        · have h1' : key_of q ∉ seen₂ := fun h => h1 (hsub h)
          simp only [dedupGo, if_neg hq, if_neg h1, if_neg h2, if_neg h1']
          rw [ih (key_of q :: seen₁) (key_of q :: seen₂)
            (List.cons_subset_cons _ hsub)]

/-- C5: the retain step is idempotent — running the engine again on the
store produced by a first run, against the same history window, removes no
further record: the kept-set is unchanged and the status is again
`has_new_content`. -/
theorem dedup_engine_idempotent (hist : List FileState) (today : List Paper) :
    dedupGo (historyKeysOf hist) [] (dedupGo (historyKeysOf hist) [] today) =
      dedupGo (historyKeysOf hist) [] today ∧
    ∀ f₁, perform_deduplication (.ok today) hist true true =
        (.has_new_content, some f₁) →
      perform_deduplication f₁ hist true true = (.has_new_content, some f₁) := by
  have hidem := dedupGo_rerun_eq (historyKeysOf hist) today [] [] (fun _ h => h)
  refine ⟨hidem, ?_⟩
  intro f₁ h
  by_cases ht : today = []
  · subst ht
    simp [perform_deduplication, load_papers_data] at h
  · by_cases hkept : dedupGo (historyKeysOf hist) [] today = []
    · simp [perform_deduplication, load_papers_data, ht, hkept] at h
    · have hf : f₁ = .ok (dedupGo (historyKeysOf hist) [] today) := by
        simp [perform_deduplication, load_papers_data, ht, hkept] at h
        exact h.symm
      subst hf
      simp [perform_deduplication, load_papers_data, hkept, hidem]

/-- C5, witness. -/
theorem dedup_engine_idempotent_witness :
    perform_deduplication (.ok [plainPaper]) [] true true =
      (.has_new_content, some (.ok [plainPaper])) :=
  (dedup_engine_idempotent [] [plainPaper]).2 (.ok [plainPaper]) (by decide)

/-- C6: the deduplication identity is exactly `(id, version)` with a
missing version read as `"v1"`; no other field enters the key; and a
record whose key differs from every history key — in particular one whose
id occurs in history only under another version — is kept. -/
theorem dedup_key_is_id_version :
    (∀ p q : Paper, p.id = q.id → p.version = q.version →
      key_of p = key_of q) ∧
    (∀ p : Paper, p.version = none → (key_of p).2 = "v1") ∧
    (∀ (hk : List (String × String)) (p : Paper),
      (∀ k ∈ hk, k.1 = (key_of p).1 → k.2 ≠ (key_of p).2) →
      dedupGo hk [] [p] = [p]) := by
  refine ⟨?_, ?_, ?_⟩
  · intro p q h1 h2
    simp [key_of, h1, h2]
  · intro p h
    simp [key_of, h]
  · intro hk p h
    have hmem : key_of p ∉ hk := fun hin => h _ hin rfl rfl
    by_cases hs : sectionLower p = "repl" <;>
      simp [dedupGo, hs, hmem]

/-- C6, witness: the spec's version-upgrade scenario — today's `v2` record
whose id appears in history only as `v1` is kept. -/
theorem dedup_key_is_id_version_witness :
    dedupGo [("2401.00002", "v1")] [] [upgradedPaper] = [upgradedPaper] :=
  dedup_key_is_id_version.2.2 _ _ (by decide)

/-- C7: with the file operations succeeding, an empty kept-set deletes the
day's file and reports `no_new_content`, and a nonempty kept-set rewrites
the file in place with exactly the retained records and reports
`has_new_content`. -/
theorem dedup_persistence_rewrite (today : FileState)
    (hist : List FileState) (h₁ : today ≠ .absent)
    (h₂ : load_papers_data today ≠ []) :
    (dedupGo (historyKeysOf hist) [] (load_papers_data today) = [] →
      perform_deduplication today hist true true =
        (.no_new_content, some .absent)) ∧
    (dedupGo (historyKeysOf hist) [] (load_papers_data today) ≠ [] →
      perform_deduplication today hist true true =
        (.has_new_content,
         some (.ok (dedupGo (historyKeysOf hist) [] (load_papers_data today))))) := by
  constructor
  · intro hk
    simp [perform_deduplication, h₁, h₂, hk]
  · intro hk
    simp [perform_deduplication, h₁, h₂, hk]

/-- C7, witness: a day whose single record is already in history ends with
the file deleted and status `no_new_content`. -/
theorem dedup_persistence_rewrite_witness :
    perform_deduplication (.ok [plainPaper]) [.ok [plainPaper]] true true =
      (.no_new_content, some .absent) :=
  (dedup_persistence_rewrite (.ok [plainPaper]) [.ok [plainPaper]]
    (by decide) (by decide)).1 (by decide)

/-- C3, counterexample: on a page whose URL yields no source category, an
entry with a valid identifier and empty subject text is emitted by the
fallback branch, although its parsed category set (empty) does not
intersect the targets and the page's source classification is not a
target — so "emitted iff (a) or (b)" fails in the only-if direction. -/
theorem fallback_emission_without_target_match :
    entryResult ["math.RT"] (sourceCatOf "x") (catPriorityOf (sourceCatOf "x"))
        (fun s => s) (some 0) [] dtAbs ddEmpty =
      .ok (some { id := "2401.00001", abs := "/abs/2401.00001",
                  pdf := "/pdf/2401.00001", categories := [],
                  cat_priority := 99, section_rank := 3 }, ["2401.00001"]) ∧
    (paperCategories ddEmpty).any
        (fun c => decide (c ∈ (["math.RT"] : List String))) = false ∧
    sourceCatOf "x" ∉ (["math.RT"] : List String) := by
  refine ⟨by rfl, by decide, by decide⟩

/-- C3, amended: for an entry with a valid, unseen identifier (and the
section-rank variable bound), the entry is emitted iff (a) its parsed
category set intersects the targets (kept with exactly those categories),
or (b) there is no intersection but the page's source classification is a
target (the nonempty source classification is force-added to the
categories), or (c) there is no intersection, the source classification is
not a target, and the subject text is empty (the fallback accept: emitted
with an empty category list and the `other` section rank).  An entry whose
nonempty subject text parses to no target-intersecting category set is
dropped when the source classification is not a target. -/
theorem entry_emission_characterization
    (targets : List String) (sourceCat : String) (catPrio : Nat)
    (urljoin : String → String) (rank : Nat) (seen : List String)
    (dt : DtNode) (dd : DdNode) (aid absUrl : String)
    (hid : extractId urljoin dt = some (aid, absUrl))
    (hseen : aid ∉ seen) :
    ((paperCategories dd).any (fun c => decide (c ∈ targets)) = true →
      entryResult targets sourceCat catPrio urljoin (some rank) seen dt dd =
        .ok (some { id := aid, abs := absUrl,
                    pdf := pyReplace absUrl "/abs/" "/pdf/",
                    categories := paperCategories dd,
                    cat_priority := catPrio, section_rank := rank },
             aid :: seen)) ∧
    ((paperCategories dd).any (fun c => decide (c ∈ targets)) = false →
      sourceCat ∈ targets →
      entryResult targets sourceCat catPrio urljoin (some rank) seen dt dd =
        .ok (some { id := aid, abs := absUrl,
                    pdf := pyReplace absUrl "/abs/" "/pdf/",
                    categories :=
                      if sourceCat ≠ "" then
                        (paperCategories dd).insert sourceCat
                      else paperCategories dd,
                    cat_priority := catPrio, section_rank := rank },
             aid :: seen)) ∧
    ((paperCategories dd).any (fun c => decide (c ∈ targets)) = false →
      sourceCat ∉ targets → subjectsText dd.subjParts = "" →
      entryResult targets sourceCat catPrio urljoin (some rank) seen dt dd =
        .ok (some { id := aid, abs := absUrl,
                    pdf := pyReplace absUrl "/abs/" "/pdf/",
                    categories := [], cat_priority := catPrio,
                    section_rank := 3 },
             aid :: seen)) ∧
    ((paperCategories dd).any (fun c => decide (c ∈ targets)) = false →
      sourceCat ∉ targets → subjectsText dd.subjParts ≠ "" →
      entryResult targets sourceCat catPrio urljoin (some rank) seen dt dd =
        .ok (none, seen)) := by
  refine ⟨?_, ?_, ?_, ?_⟩
  · intro h1
    simp [entryResult, hid, hseen, h1]
  · intro h1 h2
    simp [entryResult, hid, hseen, h1, h2]
  · intro h1 h2 h3
    simp [entryResult, hid, hseen, h1, h2, h3]
  · intro h1 h2 h3
    simp [entryResult, hid, hseen, h1, h2, h3]

/-- C3 amended, witness: an entry whose categories intersect the targets
is emitted with exactly the parsed categories. -/
theorem entry_emission_characterization_witness :
    entryResult ["math.QA"] "math.QA" 0 (fun s => s) (some 0) []
        dtAbs ddWithCode =
      .ok (some { id := "2401.00001", abs := "/abs/2401.00001",
                  pdf := "/pdf/2401.00001", categories := ["math.QA"],
                  cat_priority := 0, section_rank := 0 }, ["2401.00001"]) :=
  (entry_emission_characterization ["math.QA"] "math.QA" 0 (fun s => s) 0 []
    dtAbs ddWithCode "2401.00001" "/abs/2401.00001" (by decide) (by decide)).1
    (by decide)

/-- Identifiers produced by one attempt of the id regex match the
4-digits–dot–5-digits shape. -/
theorem matchAbsIdAt_valid :
    ∀ (l : List Char) (s : String), matchAbsIdAt l = some s →
      validIdStr s = true := by
  intro l s h
  unfold matchAbsIdAt at h
  split at h
  · split at h
    · rename_i hcond
      injection h with h'
      subst h'
      simp only [validIdStr, String.mk]
      simp only [Bool.and_eq_true] at hcond ⊢
      refine ⟨⟨⟨⟨⟨⟨⟨⟨⟨?_, ?_⟩, ?_⟩, ?_⟩, ?_⟩, ?_⟩, ?_⟩, ?_⟩, ?_⟩, ?_⟩ <;>
        simp_all
    · exact absurd h (by simp)
  · exact absurd h (by simp)

/-- Identifiers produced by the id-regex search match the shape. -/
theorem searchAbsId_valid :
    ∀ (l : List Char) (s : String), searchAbsId l = some s →
      validIdStr s = true := by
  intro l
  induction l with
  | nil => intro s h; exact absurd h (by simp [searchAbsId])
  | cons c t ih =>
    intro s h
    unfold searchAbsId at h
    split at h
    · rename_i heq
      injection h with h'
      subst h'
      exact matchAbsIdAt_valid _ _ heq
    · exact ih s h

/-- Identifiers produced by `extractId` match the shape. -/
theorem extractId_valid (urljoin : String → String) (dt : DtNode)
    (aid absUrl : String) (h : extractId urljoin dt = some (aid, absUrl)) :
    validIdStr aid = true := by
  unfold extractId at h
  split at h
  · simp at h
  · simp only [] at h
    split at h
    · simp at h
    · rename_i s' heq
      simp only [Option.some.injEq, Prod.mk.injEq] at h
      obtain ⟨h₁, h₂⟩ := h
      subst h₁
      exact searchAbsId_valid _ _ heq

/-- Every item an entry produces carries the identifier extracted for it. -/
theorem entryResult_item_valid (targets : List String) (sourceCat : String)
    (catPrio : Nat) (urljoin : String → String) (rank? : Option Nat)
    (seen : List String) (dt : DtNode) (dd : DdNode) (it : Item)
    (seen' : List String)
    (h : entryResult targets sourceCat catPrio urljoin rank? seen dt dd =
      .ok (some it, seen')) : validIdStr it.id = true := by
  unfold entryResult at h
  split at h
  · simp at h
  · rename_i aid absUrl heq
    split at h
    · simp at h
    · simp only [] at h
      split at h
      · split at h
        · simp at h
        · simp only [Except.ok.injEq, Prod.mk.injEq, Option.some.injEq] at h
          obtain ⟨h₁, _⟩ := h
          subst h₁
          exact extractId_valid urljoin dt aid absUrl heq
      · split at h
        · simp only [Except.ok.injEq, Prod.mk.injEq, Option.some.injEq] at h
          obtain ⟨h₁, _⟩ := h
          subst h₁
          exact extractId_valid urljoin dt aid absUrl heq
        · simp at h

/-- Every item the entry loop produces carries a pattern-valid
identifier. -/
theorem processEntries_items_valid (targets : List String)
    (sourceCat : String) (catPrio : Nat) (urljoin : String → String)
    (rank? : Option Nat) :
    ∀ (pairs : List (DtNode × DdNode)) (seen : List String)
      (items : List Item) (seen' : List String),
      processEntries targets sourceCat catPrio urljoin rank? seen pairs =
        .ok (items, seen') →
      ∀ it ∈ items, validIdStr it.id = true := by
  intro pairs
  induction pairs with
  | nil =>
    intro seen items seen' h it hmem
    simp only [processEntries, Except.ok.injEq, Prod.mk.injEq] at h
    obtain ⟨h₁, _⟩ := h
    subst h₁
    exact absurd hmem (by simp)
  | cons pair rest ih =>
    intro seen items seen' h it hmem
    obtain ⟨dt, dd⟩ := pair
    unfold processEntries at h
    split at h
    · simp at h
    · rename_i seen₁ _
      exact ih _ _ _ h it hmem
    · rename_i it₀ seen₁ hentry
      split at h
      · simp at h
      · rename_i items₁ seen₂ hrest
        simp only [Except.ok.injEq, Prod.mk.injEq] at h
        obtain ⟨h₁, _⟩ := h
        subst h₁
        rcases List.mem_cons.mp hmem with rfl | hmem'
        · exact entryResult_item_valid _ _ _ _ _ _ _ _ _ _ hentry
        · exact ih _ _ _ hrest it hmem'

/-- Every item the element loop produces carries a pattern-valid
identifier. -/
theorem processElems_items_valid (targets : List String)
    (sourceCat : String) (catPrio : Nat) (urljoin : String → String) :
    ∀ (elems : List PageElem) (rank? : Option Nat) (seen : List String)
      (items : List Item) (seen' : List String),
      processElems targets sourceCat catPrio urljoin rank? seen elems =
        .ok (items, seen') →
      ∀ it ∈ items, validIdStr it.id = true := by
  intro elems
  induction elems with
  | nil =>
    intro rank? seen items seen' h it hmem
    simp only [processElems, Except.ok.injEq, Prod.mk.injEq] at h
    obtain ⟨h₁, _⟩ := h
    subst h₁
    exact absurd hmem (by simp)
  | cons e rest ih =>
    intro rank? seen items seen' h it hmem
    cases e with
    | h3 texts => exact ih _ _ _ _ h it hmem
    | dl node =>
      unfold processElems at h
      split at h
      · simp at h
      · rename_i items₁ seen₁ hblock
        split at h
        · simp at h
        · rename_i items₂ seen₂ hrest
          simp only [Except.ok.injEq, Prod.mk.injEq] at h
          obtain ⟨h₁, _⟩ := h
          subst h₁
          rcases List.mem_append.mp hmem with hmem' | hmem'
          · exact processEntries_items_valid _ _ _ _ _ _ _ _ _ hblock it hmem'
          · exact ih _ _ _ _ hrest it hmem'

/-- C9: every record the Extractor emits has an identifier of exactly
4 digits, a dot, and 5 digits; and an entry from which no identifier can
be extracted is skipped silently — it produces no record, no error, and
leaves the seen-set unchanged. -/
theorem emitted_ids_match_pattern :
    (∀ (targets : List String) (urljoin : String → String) (url : String)
        (seen₀ : List String) (elems : List PageElem)
        (out : List PaperOut) (seen' : List String),
      parsePage targets urljoin url seen₀ elems = .ok (out, seen') →
      ∀ r ∈ out, validIdStr r.id = true) ∧
    (∀ (targets : List String) (sourceCat : String) (catPrio : Nat)
        (urljoin : String → String) (rank? : Option Nat)
        (seen : List String) (dt : DtNode) (dd : DdNode),
      extractId urljoin dt = none →
      entryResult targets sourceCat catPrio urljoin rank? seen dt dd =
        .ok (none, seen)) := by
  constructor
  · intro targets urljoin url seen₀ elems out seen' h r hmem
    unfold parsePage at h
    simp only [] at h
    split at h
    · simp at h
    · rename_i items seen₁ helems
      simp only [Except.ok.injEq, Prod.mk.injEq] at h
      obtain ⟨h₁, _⟩ := h
      subst h₁
      obtain ⟨it, hit, rfl⟩ := List.mem_map.mp hmem
      have hit' : it ∈ items := by
        simpa [sortItems, List.mem_insertionSort] using hit
      exact processElems_items_valid _ _ _ _ _ _ _ _ _ helems it hit'
  · intro targets sourceCat catPrio urljoin rank? seen dt dd h
    simp [entryResult, h]

/-- C9, witness. -/
theorem emitted_ids_match_pattern_witness : validIdStr "2401.00001" = true :=
  emitted_ids_match_pattern.1 ["math.RT"] (fun s => s)
    "https://arxiv.org/list/math.RT/new" []
    [.h3 ["New submissions"], .dl ⟨[dtAbs], [ddRT]⟩]
    [{ id := "2401.00001", abs := "/abs/2401.00001", pdf := "/pdf/2401.00001",
       categories := ["math.RT"] }] ["2401.00001"] (by rfl)
    { id := "2401.00001", abs := "/abs/2401.00001", pdf := "/pdf/2401.00001",
      categories := ["math.RT"] } (by simp)

/-- C10, counterexample: a page whose first structural element is an entry
block with a valid-identifier entry does not necessarily fail — when the
entry's nonempty subject text parses to no target-intersecting category
and the source classification is not a target, the entry is skipped
without ever reading the unbound section-rank variable, and parsing
succeeds with no records. -/
theorem dl_first_valid_id_without_error :
    parsePage ["math.RT"] (fun s => s) "x" []
        [.dl ⟨[dtAbs], [ddNoCode]⟩] = .ok ([], []) ∧
    extractId (fun s => s) dtAbs = some ("2401.00001", "/abs/2401.00001") :=
  ⟨by rfl, by rfl⟩

/-- C10, amended: with the section-rank variable still unbound (no heading
seen yet), processing an entry raises the unbound-variable error exactly
when the entry has a valid, not-yet-seen identifier and its target-match
decision succeeds (parsed categories intersect the targets, or the source
classification is a target); entries that fail the match, or are accepted
through the empty-subject fallback (which writes the literal rank 3), do
not read the variable. -/
theorem unbound_section_rank_error_characterization
    (targets : List String) (sourceCat : String) (catPrio : Nat)
    (urljoin : String → String) (seen : List String)
    (dt : DtNode) (dd : DdNode) :
    entryResult targets sourceCat catPrio urljoin none seen dt dd =
        .error () ↔
      ∃ aid absUrl, extractId urljoin dt = some (aid, absUrl) ∧
        aid ∉ seen ∧
        ((paperCategories dd).any (fun c => decide (c ∈ targets)) = true ∨
          sourceCat ∈ targets) := by
  unfold entryResult
  split
  · rename_i hnone
    simp [hnone]
  · rename_i aid absUrl heq
    by_cases hseen : aid ∈ seen
    · simp [hseen, heq]
    · simp only [if_neg hseen]
      by_cases h1 : (paperCategories dd).any (fun c => decide (c ∈ targets)) = true
      · simp [h1, heq, hseen]
      · by_cases h2 : sourceCat ∈ targets
        · simp [h1, h2, heq, hseen]
        · by_cases h3 : subjectsText dd.subjParts = "" <;>
            simp [h1, h2, h3, heq, hseen]

/-- C8: the exit-code contract of `main` — 0 for `has_new_content`, 1 for
`no_new_content` and `no_data`, 2 for `error`; every `print` call site in
check_stats.py targets the error stream; and a missing today-file yields
`no_data` without creating a file. -/
theorem exit_codes_and_streams :
    exit_code .has_new_content = 0 ∧ exit_code .no_new_content = 1 ∧
    exit_code .no_data = 1 ∧ exit_code .error = 2 ∧
    (∀ s ∈ printSites, s = .stderr) ∧
    (∀ (hist : List FileState) (w r : Bool),
      perform_deduplication .absent hist w r = (.no_data, some .absent)) := by
  refine ⟨rfl, rfl, rfl, rfl, by decide, ?_⟩
  intro hist w r
  rfl

/-- C8, witness. -/
theorem exit_codes_and_streams_witness :
    OutStream.stderr ∈ printSites ∧ OutStream.stderr = OutStream.stderr :=
  ⟨by decide, exit_codes_and_streams.2.2.2.2.1 OutStream.stderr (by decide)⟩

/-! ### Order facts for the sort comparators -/

/-- Totality of `charListLe`. -/
theorem charListLe_total : ∀ a b, charListLe a b = true ∨ charListLe b a = true
  | [], _ => Or.inl rfl
  | _ :: _, [] => Or.inr rfl
  | a :: as, b :: bs => by
    by_cases h1 : a.toNat < b.toNat
    · exact Or.inl (by simp [charListLe, h1])
    · by_cases h2 : b.toNat < a.toNat
      · exact Or.inr (by simp [charListLe, h1, h2])
      · rcases charListLe_total as bs with h | h
        · exact Or.inl (by simp [charListLe, h1, h2, h])
        · refine Or.inr ?_
          simp only [charListLe, h]
          have h3 : ¬ b.toNat < a.toNat := h2
          have h4 : ¬ a.toNat < b.toNat := h1
          rw [if_neg h3, if_neg h4]

/-- Transitivity of `charListLe`. -/
theorem charListLe_trans : ∀ a b c, charListLe a b = true →
    charListLe b c = true → charListLe a c = true
  | [], _, _, _, _ => rfl
  | _ :: _, [], _, h, _ => by simp [charListLe] at h
  | _ :: _, _ :: _, [], _, h => by simp [charListLe] at h
  | a :: as, b :: bs, c :: cs, h1, h2 => by
    simp only [charListLe] at h1 h2 ⊢
    split_ifs at h1 h2 ⊢ <;> try omega
    all_goals try rfl
    all_goals exact charListLe_trans as bs cs (by assumption) (by assumption)

/-- Characters with equal code points are equal. -/
theorem char_toNat_inj {a b : Char} (h : a.toNat = b.toNat) : a = b :=
  Char.ext (UInt32.ext h)

/-- Antisymmetry of `charListLe`. -/
theorem charListLe_antisymm : ∀ a b, charListLe a b = true →
    charListLe b a = true → a = b
  | [], [], _, _ => rfl
  | [], _ :: _, _, h => by simp [charListLe] at h
  | _ :: _, [], h, _ => by simp [charListLe] at h
  | a :: as, b :: bs, h1, h2 => by
    simp only [charListLe] at h1 h2
    split_ifs at h1 h2 <;> try omega
    have hab : a = b := char_toNat_inj (by omega)
    rw [hab, charListLe_antisymm as bs h1 h2]

/-- Totality of `strLe`. -/
theorem strLe_total (a b : String) : strLe a b = true ∨ strLe b a = true :=
  charListLe_total a.data b.data

/-- Transitivity of `strLe`. -/
theorem strLe_trans (a b c : String) (h1 : strLe a b = true)
    (h2 : strLe b c = true) : strLe a c = true :=
  charListLe_trans a.data b.data c.data h1 h2

/-- Antisymmetry of `strLe`. -/
theorem strLe_antisymm (a b : String) (h1 : strLe a b = true)
    (h2 : strLe b a = true) : a = b := by
  have h := charListLe_antisymm a.data b.data h1 h2
  cases a
  cases b
  exact congrArg String.mk h

/-- The composite comparator is total. -/
theorem lexLe_total : ∀ a b : Item, lexLe a b ∨ lexLe b a := by
  intro a b
  unfold lexLe
  rcases Nat.lt_trichotomy a.cat_priority b.cat_priority with h | h | h
  · exact Or.inl (Or.inl h)
  · rcases Nat.lt_trichotomy a.section_rank b.section_rank with h2 | h2 | h2
    · exact Or.inl (Or.inr ⟨h, Or.inl h2⟩)
    · rcases strLe_total b.id a.id with h3 | h3
      · exact Or.inl (Or.inr ⟨h, Or.inr ⟨h2, h3⟩⟩)
      · exact Or.inr (Or.inr ⟨h.symm, Or.inr ⟨h2.symm, h3⟩⟩)
    · exact Or.inr (Or.inr ⟨h.symm, Or.inl h2⟩)
  · exact Or.inr (Or.inl h)

/-- The composite comparator is transitive. -/
theorem lexLe_trans : ∀ a b c : Item, lexLe a b → lexLe b c → lexLe a c := by
  intro a b c hab hbc
  unfold lexLe at hab hbc ⊢
  rcases hab with h1 | ⟨h1, h1'⟩ <;> rcases hbc with h2 | ⟨h2, h2'⟩
  · exact Or.inl (by omega)
  · exact Or.inl (by omega)
  · exact Or.inl (by omega)
  · refine Or.inr ⟨by omega, ?_⟩
    rcases h1' with g1 | ⟨g1, g1'⟩ <;> rcases h2' with g2 | ⟨g2, g2'⟩
    · exact Or.inl (by omega)
    · exact Or.inl (by omega)
    · exact Or.inl (by omega)
    · exact Or.inr ⟨by omega, strLe_trans _ _ _ g2' g1'⟩

/-! ### Stability infrastructure -/

/-- Two distinct members of a list occur as a pair sublist in one order or
the other. -/
theorem pair_sublist_total {α : Type _} {a b : α} {l : List α}
    (ha : a ∈ l) (hb : b ∈ l) (hne : a ≠ b) :
    [a, b] <+ l ∨ [b, a] <+ l := by
  induction l with
  | nil => exact absurd ha (List.not_mem_nil a)
  | cons c t ih =>
    rcases List.mem_cons.mp ha with rfl | ha'
    · have hb' : b ∈ t := by
        rcases List.mem_cons.mp hb with rfl | h
        · exact absurd rfl hne
        · exact h
      exact Or.inl ((List.singleton_sublist.mpr hb').cons₂ a)
    · rcases List.mem_cons.mp hb with rfl | hb'
      · exact Or.inr ((List.singleton_sublist.mpr ha').cons₂ b)
      · rcases ih ha' hb' with h | h
        · exact Or.inl (h.cons c)
        · exact Or.inr (h.cons c)

/-- A duplicate-free list has no `[a, a]` sublist. -/
theorem not_pair_self_sublist {α : Type _} {a : α} :
    ∀ {l : List α}, l.Nodup → ¬ [a, a] <+ l := by
  intro l
  induction l with
  | nil =>
    intro _ h
    simp at h
  | cons c t ih =>
    intro hnd h
    obtain ⟨hc, ht⟩ := List.nodup_cons.mp hnd
    rcases List.sublist_cons_iff.mp h with h' | ⟨r, hr, h'⟩
    · exact ih ht h'
    · injection hr with e1 e2
      subst e1
      subst e2
      exact hc (List.singleton_sublist.mp h')

/-- In a duplicate-free list, a pair cannot occur as a sublist in both
orders unless its components are equal. -/
theorem eq_of_pair_sublists {α : Type _} {a b : α} :
    ∀ {l : List α}, l.Nodup → [a, b] <+ l → [b, a] <+ l → a = b := by
  intro l
  induction l with
  | nil =>
    intro _ h
    simp at h
  | cons c t ih =>
    intro hnd h1 h2
    obtain ⟨hc, ht⟩ := List.nodup_cons.mp hnd
    rcases List.sublist_cons_iff.mp h1 with h1' | ⟨r1, hr1, h1'⟩
    · rcases List.sublist_cons_iff.mp h2 with h2' | ⟨r2, hr2, h2'⟩
      · exact ih ht h1' h2'
      · injection hr2 with e1 e2
        subst e1
        have : b ∈ t := h1'.subset (by simp)
        exact absurd this hc
    · rcases List.sublist_cons_iff.mp h2 with h2' | ⟨r2, hr2, h2'⟩
      · injection hr1 with e1 e2
        subst e1
        have : a ∈ t := h2'.subset (by simp)
        exact absurd this hc
      · injection hr1 with e1 _
        injection hr2 with e2 _
        subst e1
        exact e2.symm

/-- A sorted permutation is unique once the order is antisymmetric on the
list's members. -/
theorem eq_of_perm_of_pairwise_antisymm {α : Type _} {R : α → α → Prop} :
    ∀ {l₁ l₂ : List α}, l₁ ~ l₂ → l₁.Pairwise R → l₂.Pairwise R →
      (∀ a ∈ l₁, ∀ b ∈ l₁, R a b → R b a → a = b) → l₁ = l₂ := by
  intro l₁
  induction l₁ with
  | nil =>
    intro l₂ p _ _ _
    exact p.nil_eq
  | cons a t₁ ih =>
    intro l₂ p hp1 hp2 hanti
    cases l₂ with
    | nil => exact absurd p.symm (by simp)
    | cons b t₂ =>
      by_cases hab : a = b
      · subst hab
        have p' := p.cons_inv
        have ht := ih p' hp1.of_cons hp2.of_cons
          (fun x hx y hy => hanti x (List.mem_cons_of_mem _ hx) y
            (List.mem_cons_of_mem _ hy))
        rw [ht]
      · have hbmem : b ∈ t₁ := by
          have hm : b ∈ a :: t₁ := p.mem_iff.mpr (List.mem_cons_self b t₂)
          rcases List.mem_cons.mp hm with h | h
          · exact absurd h.symm hab
          · exact h
        have hamem : a ∈ t₂ := by
          have hm : a ∈ b :: t₂ := p.mem_iff.mp (List.mem_cons_self a t₁)
          rcases List.mem_cons.mp hm with h | h
          · exact absurd h hab
          · exact h
        have hRab : R a b := (List.pairwise_cons.mp hp1).1 b hbmem
        have hRba : R b a := (List.pairwise_cons.mp hp2).1 a hamem
        exact absurd
          (hanti a (List.mem_cons_self a t₁) b (List.mem_cons_of_mem a hbmem)
            hRab hRba) hab

/-- The key stability fact: one stable-sort pass over a duplicate-free
list refines the previous arrangement lexicographically — in the output,
`a` before `b` means `a` is strictly below `b`, or they are tied and
already stood in the relation `Q` the input guaranteed. -/
theorem insertionSort_pairwise_lex {α : Type _} (r : α → α → Prop)
    [DecidableRel r] [IsTotal α r] [IsTrans α r] (Q : α → α → Prop)
    {m : List α} (hnd : m.Nodup) (hm : m.Pairwise Q) :
    (List.insertionSort r m).Pairwise
      (fun a b => (r a b ∧ ¬ r b a) ∨ (r a b ∧ r b a ∧ Q a b)) := by
  rw [List.pairwise_iff_forall_sublist]
  intro a b hab
  have hnd' : (List.insertionSort r m).Nodup :=
    ((List.perm_insertionSort r m).nodup_iff).mpr hnd
  have hrab : r a b :=
    List.pairwise_iff_forall_sublist.mp (List.sorted_insertionSort r m) hab
  by_cases hrba : r b a
  · right
    refine ⟨hrab, hrba, ?_⟩
    by_cases heq : a = b
    · subst heq
      exact absurd hab (not_pair_self_sublist hnd')
    · have ham : a ∈ m :=
        (List.perm_insertionSort r m).subset (hab.subset (by simp))
      have hbm : b ∈ m :=
        (List.perm_insertionSort r m).subset (hab.subset (by simp))
      rcases pair_sublist_total ham hbm heq with h | h
      · exact List.pairwise_iff_forall_sublist.mp hm h
      · have hba : [b, a] <+ List.insertionSort r m :=
          List.pair_sublist_insertionSort hrba h
        exact absurd (eq_of_pair_sublists hnd' hab hba) heq
  · exact Or.inl ⟨hrab, hrba⟩

/-- On a list of items with pairwise-distinct identifiers, the three
stable passes equal the single composite-key sort, and the result is
ordered by the composite key. -/
theorem sortItems_eq_compositeSort_of_distinct (l : List Item)
    (hids : l.Pairwise (fun a b => a.id ≠ b.id)) :
    sortItems l = compositeSort l ∧ (sortItems l).Pairwise lexLe := by
  letI : IsTotal Item idDescLe := ⟨fun a b => strLe_total b.id a.id⟩
  letI : IsTrans Item idDescLe :=
    ⟨fun _ _ _ hab hbc => strLe_trans _ _ _ hbc hab⟩
  letI : IsTotal Item secLe := ⟨fun _ _ => Nat.le_total _ _⟩
  letI : IsTrans Item secLe := ⟨fun _ _ _ => Nat.le_trans⟩
  letI : IsTotal Item catLe := ⟨fun _ _ => Nat.le_total _ _⟩
  letI : IsTrans Item catLe := ⟨fun _ _ _ => Nat.le_trans⟩
  letI : IsTotal Item lexLe := ⟨lexLe_total⟩
  letI : IsTrans Item lexLe := ⟨lexLe_trans⟩
  have hnd : l.Nodup := hids.imp (fun h heq => h (congrArg Item.id heq))
  have idInj : ∀ a ∈ l, ∀ b ∈ l, a.id = b.id → a = b := by
    intro a ha b hb heq
    by_contra hne
    rcases pair_sublist_total ha hb hne with h | h
    · exact List.pairwise_iff_forall_sublist.mp hids h heq
    · exact List.pairwise_iff_forall_sublist.mp hids h heq.symm
  have hp1 : (List.insertionSort idDescLe l).Pairwise idDescLe :=
    List.sorted_insertionSort idDescLe l
  have hnd1 : (List.insertionSort idDescLe l).Nodup :=
    ((List.perm_insertionSort idDescLe l).nodup_iff).mpr hnd
  have hp2' := insertionSort_pairwise_lex secLe idDescLe hnd1 hp1
  have hp2 :
      (List.insertionSort secLe (List.insertionSort idDescLe l)).Pairwise
        (fun a b => a.section_rank < b.section_rank ∨
          (a.section_rank = b.section_rank ∧ idDescLe a b)) := by
    refine hp2'.imp ?_
    intro a b h
    rcases h with ⟨h1, h2⟩ | ⟨h1, h2, h3⟩
    · unfold secLe at h1 h2
      exact Or.inl (by omega)
    · unfold secLe at h1 h2
      exact Or.inr ⟨by omega, h3⟩
  have hnd2 :
      (List.insertionSort secLe (List.insertionSort idDescLe l)).Nodup :=
    ((List.perm_insertionSort secLe _).nodup_iff).mpr hnd1
  have hp3' := insertionSort_pairwise_lex catLe _ hnd2 hp2
  have hp3 : (sortItems l).Pairwise lexLe := by
    refine hp3'.imp ?_
    intro a b h
    unfold lexLe
    rcases h with ⟨h1, h2⟩ | ⟨h1, h2, h3⟩
    · unfold catLe at h1 h2
      exact Or.inl (by omega)
    · unfold catLe at h1 h2
      refine Or.inr ⟨by omega, ?_⟩
      rcases h3 with g | ⟨g1, g2⟩
      · exact Or.inl g
      · exact Or.inr ⟨g1, g2⟩
  have hcomp : (compositeSort l).Pairwise lexLe :=
    List.sorted_insertionSort lexLe l
  have p1 := List.perm_insertionSort idDescLe l
  have p2 := List.perm_insertionSort secLe (List.insertionSort idDescLe l)
  have p3 := List.perm_insertionSort catLe
    (List.insertionSort secLe (List.insertionSort idDescLe l))
  have ptol : sortItems l ~ l := (p3.trans p2).trans p1
  have hperm : sortItems l ~ compositeSort l :=
    ptol.trans (List.perm_insertionSort lexLe l).symm
  have hanti : ∀ a ∈ sortItems l, ∀ b ∈ sortItems l,
      lexLe a b → lexLe b a → a = b := by
    intro a ha b hb h1 h2
    have ha' : a ∈ l := ptol.subset ha
    have hb' : b ∈ l := ptol.subset hb
    unfold lexLe at h1 h2
    rcases h1 with hc | ⟨hc, hs⟩ <;> rcases h2 with hc' | ⟨hc', hs'⟩
    · omega
    · omega
    · omega
    · rcases hs with hss | ⟨hss, hid⟩ <;> rcases hs' with hss' | ⟨hss', hid'⟩
      · omega
      · omega
      · omega
      · exact idInj a ha' b hb' (strLe_antisymm a.id b.id hid' hid)
  exact ⟨eq_of_perm_of_pairwise_antisymm hperm hp3 hcomp hanti, hp3⟩

/-- A produced entry pushes exactly its own fresh identifier onto the
seen-set; a skipped entry leaves it unchanged. -/
theorem entryResult_seen_shape (targets : List String) (sourceCat : String)
    (catPrio : Nat) (urljoin : String → String) (rank? : Option Nat)
    (seen : List String) (dt : DtNode) (dd : DdNode)
    (res : Option Item × List String)
    (h : entryResult targets sourceCat catPrio urljoin rank? seen dt dd =
      .ok res) :
    (res.1 = none ∧ res.2 = seen) ∨
      (∃ it, res.1 = some it ∧ res.2 = it.id :: seen ∧ it.id ∉ seen) := by
  unfold entryResult at h
  split at h
  · simp only [Except.ok.injEq] at h
    subst h
    exact Or.inl ⟨rfl, rfl⟩
  · rename_i aid absUrl heq
    split at h
    · rename_i hseen
      simp only [Except.ok.injEq] at h
      subst h
      exact Or.inl ⟨rfl, rfl⟩
    · rename_i hseen
      simp only [] at h
      split at h
      · split at h
        · simp at h
        · simp only [Except.ok.injEq] at h
          subst h
          exact Or.inr ⟨_, rfl, rfl, hseen⟩
      · split at h
        · simp only [Except.ok.injEq] at h
          subst h
          exact Or.inr ⟨_, rfl, rfl, hseen⟩
        · simp only [Except.ok.injEq] at h
          subst h
          exact Or.inl ⟨rfl, rfl⟩

/-- The entry loop produces items with pairwise-distinct identifiers, all
fresh with respect to the incoming seen-set and recorded in the outgoing
one, and only grows the seen-set. -/
theorem processEntries_distinct_ids (targets : List String)
    (sourceCat : String) (catPrio : Nat) (urljoin : String → String)
    (rank? : Option Nat) :
    ∀ (pairs : List (DtNode × DdNode)) (seen : List String)
      (items : List Item) (seen' : List String),
      processEntries targets sourceCat catPrio urljoin rank? seen pairs =
        .ok (items, seen') →
      items.Pairwise (fun a b => a.id ≠ b.id) ∧
        (∀ it ∈ items, it.id ∉ seen) ∧
        (∀ it ∈ items, it.id ∈ seen') ∧ seen ⊆ seen' := by
  intro pairs
  induction pairs with
  | nil =>
    intro seen items seen' h
    simp only [processEntries, Except.ok.injEq, Prod.mk.injEq] at h
    obtain ⟨h₁, h₂⟩ := h
    subst h₁
    subst h₂
    exact ⟨List.Pairwise.nil, by simp, by simp, fun x hx => hx⟩
  | cons pair rest ih =>
    intro seen items seen' h
    obtain ⟨dt, dd⟩ := pair
    unfold processEntries at h
    split at h
    · simp at h
    · rename_i seen₁ hentry
      have hshape := entryResult_seen_shape _ _ _ _ _ _ _ _ _ hentry
      rcases hshape with ⟨_, hs⟩ | ⟨it₀, hit, _, _⟩
      · simp only at hs
        subst hs
        exact ih _ _ _ h
      · simp at hit
    · rename_i it₀ seen₁ hentry
      have hshape := entryResult_seen_shape _ _ _ _ _ _ _ _ _ hentry
      rcases hshape with ⟨hnone, _⟩ | ⟨it₁, hit, hs, hfresh⟩
      · simp at hnone
      · simp only [Option.some.injEq] at hit
        subst hit
        simp only at hs
        subst hs
        split at h
        · simp at h
        · rename_i items₁ seen₂ hrest
          simp only [Except.ok.injEq, Prod.mk.injEq] at h
          obtain ⟨h₁, h₂⟩ := h
          subst h₁
          subst h₂
          obtain ⟨hpw, hfresh', hmem', hgrow⟩ := ih _ _ _ hrest
          refine ⟨List.pairwise_cons.mpr ⟨?_, hpw⟩, ?_, ?_, ?_⟩
          · intro b hb hbeq
            exact hfresh' b hb (hbeq ▸ List.mem_cons_self _ _)
          · intro it hit
            rcases List.mem_cons.mp hit with rfl | hit'
            · exact hfresh
            · intro hmem
              exact hfresh' it hit' (List.mem_cons_of_mem _ hmem)
          · intro it hit
            rcases List.mem_cons.mp hit with rfl | hit'
            · exact hgrow (List.mem_cons_self _ _)
            · exact hmem' it hit'
          · exact fun x hx => hgrow (List.mem_cons_of_mem _ hx)

/-- The element loop produces items with pairwise-distinct identifiers,
all fresh with respect to the incoming seen-set and recorded in the
outgoing one, and only grows the seen-set. -/
theorem processElems_distinct_ids (targets : List String)
    (sourceCat : String) (catPrio : Nat) (urljoin : String → String) :
    ∀ (elems : List PageElem) (rank? : Option Nat) (seen : List String)
      (items : List Item) (seen' : List String),
      processElems targets sourceCat catPrio urljoin rank? seen elems =
        .ok (items, seen') →
      items.Pairwise (fun a b => a.id ≠ b.id) ∧
        (∀ it ∈ items, it.id ∉ seen) ∧
        (∀ it ∈ items, it.id ∈ seen') ∧ seen ⊆ seen' := by
  intro elems
  induction elems with
  | nil =>
    intro rank? seen items seen' h
    simp only [processElems, Except.ok.injEq, Prod.mk.injEq] at h
    obtain ⟨h₁, h₂⟩ := h
    subst h₁
    subst h₂
    exact ⟨List.Pairwise.nil, by simp, by simp, fun x hx => hx⟩
  | cons e rest ih =>
    intro rank? seen items seen' h
    cases e with
    | h3 texts => exact ih _ _ _ _ h
    | dl node =>
      unfold processElems at h
      split at h
      · simp at h
      · rename_i items₁ seen₁ hblock
        split at h
        · simp at h
        · rename_i items₂ seen₂ hrest
          simp only [Except.ok.injEq, Prod.mk.injEq] at h
          obtain ⟨h₁, h₂⟩ := h
          subst h₁
          subst h₂
          obtain ⟨hpw₁, hfresh₁, hmem₁, hgrow₁⟩ :=
            processEntries_distinct_ids _ _ _ _ _ _ _ _ _ hblock
          obtain ⟨hpw₂, hfresh₂, hmem₂, hgrow₂⟩ := ih _ _ _ _ hrest
          refine ⟨?_, ?_, ?_, fun x hx => hgrow₂ (hgrow₁ hx)⟩
          · refine List.pairwise_append.mpr ⟨hpw₁, hpw₂, ?_⟩
            intro a ha b hb hab
            exact hfresh₂ b hb (hab ▸ hmem₁ a ha)
          · intro it hit
            rcases List.mem_append.mp hit with hit' | hit'
            · exact hfresh₁ it hit'
            · intro hmem
              exact hfresh₂ it hit' (hgrow₁ hmem)
          · intro it hit
            rcases List.mem_append.mp hit with hit' | hit'
            · exact hgrow₂ (hmem₁ it hit')
            · exact hmem₂ it hit'

/-- C4: applying the three stable passes (identifier descending, then
section rank ascending, then source priority ascending) to any list of
items with pairwise-distinct identifiers yields exactly the single stable
sort by the composite key, and that output is ordered by the composite
key; the Extractor's per-page item lists do have pairwise-distinct
identifiers. -/
theorem three_pass_sort_eq_composite :
    (∀ l : List Item, l.Pairwise (fun a b => a.id ≠ b.id) →
      sortItems l = compositeSort l ∧ (sortItems l).Pairwise lexLe) ∧
    (∀ (targets : List String) (sourceCat : String) (catPrio : Nat)
        (urljoin : String → String) (rank? : Option Nat)
        (seen : List String) (elems : List PageElem)
        (items : List Item) (seen' : List String),
      processElems targets sourceCat catPrio urljoin rank? seen elems =
        .ok (items, seen') →
      items.Pairwise (fun a b => a.id ≠ b.id)) :=
  ⟨sortItems_eq_compositeSort_of_distinct,
   fun targets sourceCat catPrio urljoin rank? seen elems items seen' h =>
     (processElems_distinct_ids targets sourceCat catPrio urljoin elems
       rank? seen items seen' h).1⟩

/-- C4, witness. -/
theorem three_pass_sort_eq_composite_witness :
    sortItems demoItems = compositeSort demoItems :=
  (three_pass_sort_eq_composite.1 demoItems (by decide)).1

end DailyArxiv
